/-
Verification of the LendingBot zenith_engine core against its specification.

The Python source is shallowly embedded: rates, amounts and balances
(Python `float` / `Decimal`) are modelled as exact rationals (ℚ); dictionaries
keyed by rates or order ids become association lists with overwrite-insert and
filter-delete (Python dicts have unique keys, so these agree); `None`-free
fallible paths are total.  Each definition mirrors one source function.
-/

import Mathlib

/-! ## Config (src/zenith_engine/config.py) -/

namespace Config

def MIN_ORDER_SIZE : ℚ := 150

def RATE_LIMIT_TOKENS_PER_MIN : ℕ := 30

def EFFICIENCY_THRESHOLD : ℚ := 1.25

def LAYER_WEIGHTS_BASE : ℚ := 0.40

def LAYER_WEIGHTS_ALPHA : ℚ := 0.30

def LAYER_WEIGHTS_SPIKE : ℚ := 0.30

end Config

/-! ## DistributionStrategy (src/zenith_engine/strategy/distribution.py) -/

/-- Layer tag carried in each generated order dict. -/
inductive LayerName where
  | BASE
  | ALPHA
  | SPIKE
deriving DecidableEq, Repr

/-- The rate field of a generated order: the Base layer carries the
`"BEST_BID"` placeholder string, the others a numeric rate. -/
inductive RateTarget where
  | bestBid
  | rate (r : ℚ)
deriving DecidableEq, Repr

/-- One dict in the list returned by `generate_orders`. -/
structure PlanOrder where
  layer : LayerName
  amount : ℚ
  target : RateTarget
deriving DecidableEq, Repr

/-- `DistributionStrategy.generate_orders`: mu = vwar*(1+bias); Base 40 % at
best bid, Alpha 30 % at mu+0.5σ, Spike 30 % at mu+3σ; a layer is appended
only when its amount is ≥ `MIN_ORDER_SIZE`. -/
def generate_orders (available_capital vwar volatility signal_bias : ℚ) :
    List PlanOrder :=
  let mu := vwar * (1 + signal_bias)
  let sigma := volatility
  let total_cap := available_capital
  let base_amt := total_cap * Config.LAYER_WEIGHTS_BASE
  let alpha_amt := total_cap * Config.LAYER_WEIGHTS_ALPHA
  let spike_amt := total_cap * Config.LAYER_WEIGHTS_SPIKE
  let alpha_rate := mu + 0.5 * sigma
  let spike_rate := mu + 3.0 * sigma
  (if base_amt ≥ Config.MIN_ORDER_SIZE then
     [⟨LayerName.BASE, base_amt, RateTarget.bestBid⟩] else []) ++
  (if alpha_amt ≥ Config.MIN_ORDER_SIZE then
     [⟨LayerName.ALPHA, alpha_amt, RateTarget.rate alpha_rate⟩] else []) ++
  (if spike_amt ≥ Config.MIN_ORDER_SIZE then
     [⟨LayerName.SPIKE, spike_amt, RateTarget.rate spike_rate⟩] else [])

/-! ## MarketStats (src/zenith_engine/signals/market_stats.py) -/

/-- One entry of `State.trades`: the `(rate, amount, timestamp)` tuple. -/
structure TradeRec where
  rate : ℚ
  amount : ℚ
  mts : ℚ
deriving DecidableEq, Repr

/-- Σ |amount| over a trade list (the `total_vol` local of `calculate_vwar`). -/
def totalVol (trades : List TradeRec) : ℚ :=
  (trades.map (fun t => |t.amount|)).sum

/-- Σ rate·|amount| over a trade list (the `weighted_sum` local). -/
def weightedSum (trades : List TradeRec) : ℚ :=
  (trades.map (fun t => t.rate * |t.amount|)).sum

/-- `MarketStats.calculate_vwar`: volume-weighted average rate, 0 on an empty
list or zero total volume. -/
def calculate_vwar (trades : List TradeRec) : ℚ :=
  if trades = [] then 0
  else if totalVol trades = 0 then 0
  else weightedSum trades / totalVol trades

/-! ## Rebalancer (src/zenith_engine/strategy/rebalancer.py) -/

/-- `Rebalancer.calculate_efficiency_threshold`:
`((r_target - r_current) * 2880) / (r_market * (t_wait + t_exec))`,
0 when the market rate or the combined time is 0. -/
def calculate_efficiency_threshold (r_target r_current r_market t_wait t_exec : ℚ) : ℚ :=
  if r_market = 0 ∨ t_wait + t_exec = 0 then 0
  else ((r_target - r_current) * 2880) / (r_market * (t_wait + t_exec))

/-- `Rebalancer.should_rebalance`: true iff eta exceeds the configured
efficiency threshold. -/
def should_rebalance (eta : ℚ) : Bool :=
  eta > Config.EFFICIENCY_THRESHOLD

/-! ## Order book (src/zenith_engine/connectivity/websocket_client.py,
`_handle_book`, and State.bids / State.asks)

Python `Dict[Decimal, Decimal]` becomes an association list with unique keys:
assignment overwrites in place, `del` filters the key out. -/

/-- Dict assignment `d[r] = v`: overwrite in place, else append. -/
def setKey : List (ℚ × ℚ) → ℚ → ℚ → List (ℚ × ℚ)
  | [], r, v => [(r, v)]
  | (k, w) :: t, r, v => if k = r then (k, v) :: t else (k, w) :: setKey t r v

/-- Dict deletion `del d[r]` (total: no-op when the key is absent). -/
def delKey (l : List (ℚ × ℚ)) (r : ℚ) : List (ℚ × ℚ) :=
  l.filter fun p => ¬ p.1 = r

/-- Dict membership `r in d`. -/
def hasKey (l : List (ℚ × ℚ)) (r : ℚ) : Bool :=
  l.any fun p => p.1 = r

/-- The bid and ask sides of the local L2 funding book. -/
structure Book where
  bids : List (ℚ × ℚ)
  asks : List (ℚ × ℚ)
deriving DecidableEq, Repr

def emptyBook : Book := ⟨[], []⟩

/-- One wire entry `[RATE, PERIOD, COUNT, AMOUNT]` of a book frame. -/
structure BookEntry where
  rate : ℚ
  period : ℤ
  count : ℤ
  amount : ℚ
deriving DecidableEq, Repr

/-- A book frame: a snapshot (list of entries) or a single incremental entry. -/
inductive BookFrame where
  | snapshot (entries : List BookEntry)
  | update (e : BookEntry)
deriving DecidableEq, Repr

/-- One loop iteration of the snapshot branch of `_handle_book`:
positive amount → bid at that rate, otherwise ask at the magnitude. -/
def snapStep (b : Book) (e : BookEntry) : Book :=
  if e.amount > 0 then { b with bids := setKey b.bids e.rate e.amount }
  else { b with asks := setKey b.asks e.rate (-e.amount) }

/-- Snapshot branch of `_handle_book`: rebuild both sides from scratch. -/
def snapBook (entries : List BookEntry) : Book :=
  entries.foldl snapStep emptyBook

/-- Update branch of `_handle_book`: count 0 deletes the rate from both sides;
otherwise insert/overwrite into the side implied by the amount's sign. -/
def updBook (b : Book) (e : BookEntry) : Book :=
  if e.count = 0 then ⟨delKey b.bids e.rate, delKey b.asks e.rate⟩
  else if e.amount > 0 then { b with bids := setKey b.bids e.rate e.amount }
  else { b with asks := setKey b.asks e.rate (-e.amount) }

/-- `_handle_book` on one frame. -/
def applyBookFrame (b : Book) : BookFrame → Book
  | BookFrame.snapshot entries => snapBook entries
  | BookFrame.update e => updBook b e

/-- A sequence of book frames applied in arrival order. -/
def applyBookFrames (b : Book) (fs : List BookFrame) : Book :=
  fs.foldl applyBookFrame b

/-! ## Trade history (`_handle_trades` / `_add_trade`) -/

/-- `_add_trade`: append, then trim to the most recent 1000 when the cap is
exceeded (`trades[-1000:]`). -/
def add_trade (h : List TradeRec) (t : TradeRec) : List TradeRec :=
  let h2 := h ++ [t]
  if h2.length > 1000 then h2.drop (h2.length - 1000) else h2

/-- A trade frame: a snapshot (list of tuples) or one `"te"`/`"tu"` execution. -/
inductive TradeFrame where
  | snapshot (ts : List TradeRec)
  | exec (t : TradeRec)
deriving DecidableEq, Repr

/-- `_handle_trades` on one frame: a snapshot appends each tuple in order,
an execution appends its single tuple. -/
def applyTradeFrame (h : List TradeRec) : TradeFrame → List TradeRec
  | TradeFrame.snapshot ts => ts.foldl add_trade h
  | TradeFrame.exec t => add_trade h t

/-! ## SpikePredictor (src/zenith_engine/signals/spike_predictor.py)

`np.mean` and `np.std` (population) over the window; the z-score needs a real
square root, so `get_z_score` lands in ℝ. -/

/-- `np.mean` of a rational sample list (0 for the empty list, as 0/0 = 0). -/
def sampleMean (w : List ℚ) : ℚ := w.sum / w.length

/-- Population variance `np.std(w)^2` (0 for the empty list). -/
def sampleVariance (w : List ℚ) : ℚ :=
  (w.map fun x => (x - sampleMean w) ^ 2).sum / w.length

/-- `np.std`: population standard deviation. -/
noncomputable def sampleStd (w : List ℚ) : ℝ :=
  Real.sqrt (sampleVariance w)

open Classical in
/-- `SpikePredictor.get_z_score`: 0 below 10 samples, 0 at zero standard
deviation, else `(x - mean) / std`. -/
noncomputable def get_z_score (w : List ℚ) (current_volume_5m : ℚ) : ℝ :=
  if w.length < 10 then 0
  else if sampleStd w = 0 then 0
  else ((current_volume_5m : ℝ) - (sampleMean w : ℝ)) / sampleStd w

/-! ## RateLimiter (src/zenith_engine/connectivity/rate_limiter.py)

`acquire` is modelled as a pure step on `(tokens, last_refill)` given the
current wall-clock time; the returned rational is the duration slept
(`asyncio.sleep`), 0 on the immediate path.  On the sleep path the code sets
`last_refill = time.time()` after waking, i.e. `now + wait` here. -/

structure RLState where
  tokens : ℚ
  last_refill : ℚ
deriving DecidableEq, Repr

/-- `RateLimiter.acquire` with configuration `rate_limit` tokens per
`window_seconds`. -/
def acquire (rate_limit : ℕ) (window_seconds : ℚ) (s : RLState) (now : ℚ) :
    RLState × ℚ :=
  let elapsed := now - s.last_refill
  let new_tokens := elapsed * ((rate_limit : ℚ) / window_seconds)
  let refilled : RLState :=
    if new_tokens > 0 then
      ⟨min (rate_limit : ℚ) (s.tokens + new_tokens), now⟩
    else s
  if refilled.tokens ≥ 1 then (⟨refilled.tokens - 1, refilled.last_refill⟩, 0)
  else
    let wait_time := (1 - refilled.tokens) * (window_seconds / (rate_limit : ℚ))
    (⟨0, now + wait_time⟩, wait_time)

/-- `n` back-to-back `acquire` calls at a frozen wall clock `now`; returns the
final state and the list of slept durations. -/
def acquireN (rate_limit : ℕ) (window_seconds : ℚ) :
    ℕ → RLState → ℚ → RLState × List ℚ
  | 0, s, _ => (s, [])
  | n + 1, s, now =>
      let p := acquire rate_limit window_seconds s now
      let q := acquireN rate_limit window_seconds n p.1 now
      (q.1, p.2 :: q.2)

/-! ## State and pending orders (src/zenith_engine/state.py)

`pending_orders: Dict[int, Order]` becomes an association list keyed by the
order id, with dict semantics (unique keys, overwrite in place). -/

/-- The `Order` dataclass. -/
structure Order where
  id : ℤ
  amount : ℚ
  rate : ℚ
  period : ℤ
  timestamp : ℚ
  type : String
deriving DecidableEq, Repr

/-- Dict lookup `pending_orders.get(i)`. -/
def lookupOrder : List (ℤ × Order) → ℤ → Option Order
  | [], _ => none
  | (k, o) :: t, i => if k = i then some o else lookupOrder t i

/-- Dict assignment `pending_orders[o.id] = o`: overwrite in place, else
append. -/
def insertOrder : List (ℤ × Order) → Order → List (ℤ × Order)
  | [], o => [(o.id, o)]
  | (k, w) :: t, o => if k = o.id then (k, o) :: t else (k, w) :: insertOrder t o

/-- The mutable `State` object: balances, pending orders, book sides, trade
history, signal fields and the last-update timestamp. -/
structure State where
  available_balance : ℚ
  lent_balance : ℚ
  pending_orders : List (ℤ × Order)
  bids : List (ℚ × ℚ)
  asks : List (ℚ × ℚ)
  trades : List TradeRec
  perp_funding_rate : ℚ
  taker_volume_z_score : ℚ
  is_aggressive_mode : Bool
  last_update_time : ℚ
deriving DecidableEq, Repr

/-- `State.add_order`: `pending_orders[order.id] = order`. -/
def State.add_order (s : State) (o : Order) : State :=
  { s with pending_orders := insertOrder s.pending_orders o }

/-- `State.remove_order`: delete the id only when present, otherwise no-op. -/
def State.remove_order (s : State) (order_id : ℤ) : State :=
  if (lookupOrder s.pending_orders order_id).isSome then
    { s with pending_orders := s.pending_orders.filter fun p => ¬ p.1 = order_id }
  else s

/-- One `add_order`/`remove_order` call in a mutation sequence. -/
inductive OrderOp where
  | add (o : Order)
  | remove (id : ℤ)
deriving DecidableEq, Repr

/-- Apply a sequence of order operations to a state. -/
def applyOrderOps (s : State) (ops : List OrderOp) : State :=
  ops.foldl
    (fun s op =>
      match op with
      | OrderOp.add o => s.add_order o
      | OrderOp.remove i => s.remove_order i)
    s

/-! ## WebSocketClient message handling
(src/zenith_engine/connectivity/websocket_client.py)

The decoded JSON frames become a tagged variant; `chan_map` becomes an
association list from channel id to channel name.  `connect` clears
`chan_map` on every (re)connection attempt; the receive loop stamps
`state.last_update_time` after every handled message. -/

/-- Logical channel names bound by subscription acknowledgments. -/
inductive Chan where
  | book
  | trades
deriving DecidableEq, Repr

/-- `chan_map.get(chan_id)`. -/
def lookupChan : List (ℕ × Chan) → ℕ → Option Chan
  | [], _ => none
  | (k, c) :: t, i => if k = i then some c else lookupChan t i

/-- `chan_map[chan_id] = channel`. -/
def setChan : List (ℕ × Chan) → ℕ → Chan → List (ℕ × Chan)
  | [], i, c => [(i, c)]
  | (k, w) :: t, i, c => if k = i then (k, c) :: t else (k, w) :: setChan t i c

/-- The data payload of an array frame: a book frame or a trade frame. -/
inductive Payload where
  | pbook (f : BookFrame)
  | ptrades (f : TradeFrame)
deriving DecidableEq, Repr

/-- A decoded inbound frame, as discriminated by `_handle_message`. -/
inductive Msg where
  | info
  | subscribed (chan_id : ℕ) (channel : Chan)
  | hb (chan_id : ℕ)
  | data (chan_id : ℕ) (p : Payload)
deriving DecidableEq, Repr

/-- The client: the shared `State` plus the per-connection channel map. -/
structure WSClient where
  state : State
  chan_map : List (ℕ × Chan)
deriving DecidableEq, Repr

/-- `_handle_message`: `info` and heartbeats are ignored; `subscribed` binds
the channel id; data frames are routed by `chan_map` and silently dropped on
an unknown id (a payload whose shape does not match the bound channel is
also left unapplied). -/
def handle_message (c : WSClient) : Msg → WSClient
  | Msg.info => c
  | Msg.subscribed i ch => { c with chan_map := setChan c.chan_map i ch }
  | Msg.hb _ => c
  | Msg.data i p =>
      match lookupChan c.chan_map i with
      | none => c
      | some Chan.book =>
          match p with
          | Payload.pbook f =>
              let b := applyBookFrame ⟨c.state.bids, c.state.asks⟩ f
              { c with state := { c.state with bids := b.bids, asks := b.asks } }
          | Payload.ptrades _ => c
      | some Chan.trades =>
          match p with
          | Payload.ptrades f =>
              { c with state := { c.state with trades := applyTradeFrame c.state.trades f } }
          | Payload.pbook _ => c

/-- An event of the ingestion state machine: a reconnection (the
`websockets.connect` retry loop body, which resets `chan_map = {}`) or a
received message (after which the loop stamps `last_update_time = now`). -/
inductive WSEvent where
  | reconnect
  | msg (m : Msg) (now : ℚ)
deriving DecidableEq, Repr

/-- One transition of the ingestion state machine. -/
def wsStep (c : WSClient) : WSEvent → WSClient
  | WSEvent.reconnect => { c with chan_map := [] }
  | WSEvent.msg m now =>
      let c2 := handle_message c m
      { c2 with state := { c2.state with last_update_time := now } }

/-- A run of the ingestion state machine from a given client state. -/
def wsRun (c : WSClient) (es : List WSEvent) : WSClient :=
  es.foldl wsStep c

/-! # Theorems -/

/-! ## C1 — DistributionStrategy.generate_orders -/

/-- C1 counterexample: with capital 300 the Base amount is 300·0.40 = 120,
below the 150 minimum, so the returned plan is empty — it does not contain
the Base layer, contrary to the claim. -/
theorem C1_capital300_counterexample :
    generate_orders 300 0.0001 0.00001 0 = [] ∧
    ((generate_orders 300 0.0001 0.00001 0).any
        fun p => p.layer = LayerName.BASE) = false := by
  have h : generate_orders 300 0.0001 0.00001 0 = [] := by
    norm_num [generate_orders, Config.MIN_ORDER_SIZE, Config.LAYER_WEIGHTS_BASE,
      Config.LAYER_WEIGHTS_ALPHA, Config.LAYER_WEIGHTS_SPIKE]
  exact ⟨h, by rw [h]; rfl⟩

/-- C1 (amended): with capital 1000, vwar 0.0001, volatility 0.00001 and
bias 0, the plan has exactly the three layers with amounts 400, 300, 300 and
Alpha/Spike rates `0.0001 + 0.000005` and `0.0001 + 0.00003`; with capital
reduced to 300 every layer (Base 120, Alpha 90, Spike 90) falls below the
minimum order size 150 and the returned plan is empty. -/
theorem C1_generate_orders_plan :
    generate_orders 1000 0.0001 0.00001 0 =
      [⟨LayerName.BASE, 400, RateTarget.bestBid⟩,
       ⟨LayerName.ALPHA, 300, RateTarget.rate (0.0001 + 0.000005)⟩,
       ⟨LayerName.SPIKE, 300, RateTarget.rate (0.0001 + 0.00003)⟩] ∧
    generate_orders 300 0.0001 0.00001 0 = [] := by
  constructor <;>
    norm_num [generate_orders, Config.MIN_ORDER_SIZE, Config.LAYER_WEIGHTS_BASE,
      Config.LAYER_WEIGHTS_ALPHA, Config.LAYER_WEIGHTS_SPIKE]

/-! ## C3 — MarketStats.calculate_vwar -/

lemma totalVol_nonneg (ts : List TradeRec) : 0 ≤ totalVol ts := by
  refine List.sum_nonneg ?_
  intro x hx
  obtain ⟨t, _, rfl⟩ := List.mem_map.mp hx
  exact abs_nonneg _

lemma weightedSum_ge (ts : List TradeRec) (lb : ℚ)
    (h : ∀ t ∈ ts, lb ≤ t.rate) : lb * totalVol ts ≤ weightedSum ts := by
  induction ts with
  | nil => simp [totalVol, weightedSum]
  | cons t ts ih =>
      have h1 : lb ≤ t.rate := h t (List.mem_cons_self t ts)
      have h2 : lb * totalVol ts ≤ weightedSum ts :=
        ih fun u hu => h u (List.mem_cons_of_mem _ hu)
      have h3 : lb * |t.amount| ≤ t.rate * |t.amount| :=
        mul_le_mul_of_nonneg_right h1 (abs_nonneg _)
      have e1 : totalVol (t :: ts) = |t.amount| + totalVol ts := by
        simp [totalVol]
      have e2 : weightedSum (t :: ts) = t.rate * |t.amount| + weightedSum ts := by
        simp [weightedSum]
      rw [e1, e2, mul_add]
      exact add_le_add h3 h2

lemma weightedSum_le (ts : List TradeRec) (ub : ℚ)
    (h : ∀ t ∈ ts, t.rate ≤ ub) : weightedSum ts ≤ ub * totalVol ts := by
  induction ts with
  | nil => simp [totalVol, weightedSum]
  | cons t ts ih =>
      have h1 : t.rate ≤ ub := h t (List.mem_cons_self t ts)
      have h2 : weightedSum ts ≤ ub * totalVol ts :=
        ih fun u hu => h u (List.mem_cons_of_mem _ hu)
      have h3 : t.rate * |t.amount| ≤ ub * |t.amount| :=
        mul_le_mul_of_nonneg_right h1 (abs_nonneg _)
      have e1 : totalVol (t :: ts) = |t.amount| + totalVol ts := by
        simp [totalVol]
      have e2 : weightedSum (t :: ts) = t.rate * |t.amount| + weightedSum ts := by
        simp [weightedSum]
      rw [e1, e2, mul_add]
      exact add_le_add h3 h2

/-- C3 (amended): when the total volume Σ|amount| is nonzero,
`calculate_vwar` lies between any lower bound and any upper bound of the
rates occurring in the trade set (hence between the minimum and the maximum
rate); `calculate_vwar` of the empty list is 0, and it is 0 whenever the
total volume is 0. -/
theorem C3_vwar_bounded (ts : List TradeRec) (lb ub : ℚ)
    (hv : totalVol ts ≠ 0)
    (hlb : ∀ t ∈ ts, lb ≤ t.rate) (hub : ∀ t ∈ ts, t.rate ≤ ub) :
    (lb ≤ calculate_vwar ts ∧ calculate_vwar ts ≤ ub) ∧
    calculate_vwar [] = 0 ∧
    (∀ us : List TradeRec, totalVol us = 0 → calculate_vwar us = 0) := by
  have hpos : 0 < totalVol ts := lt_of_le_of_ne (totalVol_nonneg ts) (Ne.symm hv)
  have hne : ts ≠ [] := by
    intro h
    rw [h] at hv
    simp [totalVol] at hv
  have hv2 : calculate_vwar ts = weightedSum ts / totalVol ts := by
    simp [calculate_vwar, hne, hv]
  refine ⟨⟨?_, ?_⟩, by simp [calculate_vwar], ?_⟩
  · rw [hv2, le_div_iff₀ hpos]
    exact weightedSum_ge ts lb hlb
  · rw [hv2, div_le_iff₀ hpos]
    exact weightedSum_le ts ub hub
  · intro us hus
    by_cases h : us = []
    · simp [calculate_vwar, h]
    · simp [calculate_vwar, h, hus]

/-- Witness for `C3_vwar_bounded` at a concrete two-trade set with rates
1 and 3 and total volume 3. -/
theorem C3_vwar_bounded_witness :
    ((1 : ℚ) ≤ calculate_vwar [⟨1, 2, 0⟩, ⟨3, -1, 5⟩] ∧
      calculate_vwar [⟨1, 2, 0⟩, ⟨3, -1, 5⟩] ≤ 3) ∧
    calculate_vwar [] = 0 ∧
    (∀ us : List TradeRec, totalVol us = 0 → calculate_vwar us = 0) := by
  refine C3_vwar_bounded [⟨1, 2, 0⟩, ⟨3, -1, 5⟩] 1 3 ?_ ?_ ?_
  · norm_num [totalVol]
  · intro t ht
    simp at ht
    rcases ht with h | h <;> simp [h]
  · intro t ht
    simp at ht
    rcases ht with h | h <;> simp [h]

/-- C3 counterexample: on the one-trade set `[(rate 5, amount 0)]` the total
volume is 0, so `calculate_vwar` returns 0, which is strictly below the
minimum (and only) rate 5 occurring in the set — the claimed lower bound
fails for zero-volume trade sets. -/
theorem C3_zero_volume_counterexample :
    calculate_vwar [⟨5, 0, 0⟩] = 0 ∧ ¬ ((5 : ℚ) ≤ calculate_vwar [⟨5, 0, 0⟩]) := by
  have h : calculate_vwar [⟨5, 0, 0⟩] = 0 := by
    norm_num [calculate_vwar, totalVol]
  exact ⟨h, by rw [h]; norm_num⟩

/-! ## C6 — Rebalancer -/

/-- C6: `calculate_efficiency_threshold` equals
`((r_target - r_current) * 2880) / (r_market * (t_wait + t_exec))` when both
the market rate and the combined time are nonzero and 0 otherwise;
`should_rebalance` holds iff eta exceeds 1.25; at the spec's concrete inputs
the value is `(0.0001*2880)/(0.0001*70)` and triggers a rebalance, while the
zero-time result 0 does not. -/
theorem C6_efficiency_threshold :
    (∀ rT rC rM tW tE : ℚ, rM ≠ 0 → tW + tE ≠ 0 →
        calculate_efficiency_threshold rT rC rM tW tE =
          ((rT - rC) * 2880) / (rM * (tW + tE))) ∧
    (∀ rT rC rM tW tE : ℚ, rM = 0 ∨ tW + tE = 0 →
        calculate_efficiency_threshold rT rC rM tW tE = 0) ∧
    (∀ eta : ℚ, should_rebalance eta = true ↔ eta > 1.25) ∧
    calculate_efficiency_threshold 0.0002 0.0001 0.0001 60 10 =
      (0.0001 * 2880) / (0.0001 * 70) ∧
    should_rebalance (calculate_efficiency_threshold 0.0002 0.0001 0.0001 60 10) = true ∧
    should_rebalance (calculate_efficiency_threshold 0.0002 0.0001 0.0001 0 0) = false := by
  refine ⟨?_, ?_, ?_, ?_, ?_, ?_⟩
  · intro rT rC rM tW tE h1 h2
    simp [calculate_efficiency_threshold, h1, h2]
  · intro rT rC rM tW tE h
    simp [calculate_efficiency_threshold, h]
  · intro eta
    simp [should_rebalance, Config.EFFICIENCY_THRESHOLD]
  · norm_num [calculate_efficiency_threshold]
  · norm_num [calculate_efficiency_threshold, should_rebalance,
      Config.EFFICIENCY_THRESHOLD]
  · norm_num [calculate_efficiency_threshold, should_rebalance,
      Config.EFFICIENCY_THRESHOLD]

/-- Witness for `C6_efficiency_threshold`, instantiating the quantified
conjuncts at concrete inputs. -/
theorem C6_efficiency_threshold_witness :
    calculate_efficiency_threshold 1 0 1 1 0 = ((1 - 0) * 2880) / (1 * (1 + 0)) ∧
    calculate_efficiency_threshold 1 0 0 1 0 = 0 ∧
    (should_rebalance 2 = true ↔ (2 : ℚ) > 1.25) :=
  ⟨C6_efficiency_threshold.1 1 0 1 1 0 (by norm_num) (by norm_num),
   C6_efficiency_threshold.2.1 1 0 0 1 0 (Or.inl rfl),
   C6_efficiency_threshold.2.2.1 2⟩

/-! ## C4 — trade history cap one-thousand -/

lemma add_trade_def (h : List TradeRec) (t : TradeRec) :
    add_trade h t =
      if (h ++ [t]).length > 1000 then
        (h ++ [t]).drop ((h ++ [t]).length - 1000)
      else h ++ [t] := rfl

lemma add_trade_length_le (h : List TradeRec) (t : TradeRec)
    (hl : h.length ≤ 1000) : (add_trade h t).length ≤ 1000 := by
  rw [add_trade_def]
  by_cases hc : (h ++ [t]).length > 1000
  · rw [if_pos hc]
    simp only [List.length_drop, List.length_append, List.length_singleton]
    omega
  · rw [if_neg hc]
    simp only [List.length_append, List.length_singleton] at hc ⊢
    omega

lemma add_trade_eq_drop (h : List TradeRec) (t : TradeRec) :
    add_trade h t = (h ++ [t]).drop ((h.length + 1) - 1000) := by
  rw [add_trade_def]
  by_cases hc : (h ++ [t]).length > 1000
  · rw [if_pos hc]
    simp only [List.length_append, List.length_singleton]
  · rw [if_neg hc]
    have h0 : (h.length + 1) - 1000 = 0 := by
      simp only [List.length_append, List.length_singleton] at hc
      omega
    rw [h0, List.drop_zero]

lemma drop_eq_drop_of_eq (l : List TradeRec) (a b : ℕ) (hab : a = b) :
    l.drop a = l.drop b := by rw [hab]

lemma foldl_add_trade (ts : List TradeRec) :
    ∀ h : List TradeRec, h.length ≤ 1000 →
      ts.foldl add_trade h = (h ++ ts).drop ((h.length + ts.length) - 1000) := by
  induction ts with
  | nil =>
      intro h hl
      have h0 : h.length - 1000 = 0 := by omega
      simp [h0]
  | cons t ts ih =>
      intro h hl
      have h1 : List.foldl add_trade h (t :: ts) =
          List.foldl add_trade (add_trade h t) ts := rfl
      rw [h1, ih (add_trade h t) (add_trade_length_le h t hl),
        add_trade_eq_drop h t]
      have hd : (h.length + 1) - 1000 ≤ (h ++ [t]).length := by
        simp only [List.length_append, List.length_singleton]
        omega
      rw [List.length_drop, ← List.drop_append_of_le_length hd, List.drop_drop]
      have hassoc : (h ++ [t]) ++ ts = h ++ t :: ts := by
        simp
      rw [hassoc]
      apply drop_eq_drop_of_eq
      have ha : (h ++ [t]).length = h.length + 1 := by simp
      simp only [List.length_cons]
      omega

/-- C4: for every sequence of trades appended through the ingestion path,
the history after all appends is exactly the most recent (at most) 1000
appended trades in order — hence its length never exceeds 1000 and eviction
is oldest-first by value. -/
theorem C4_trade_history_bounded (ts : List TradeRec) :
    ts.foldl add_trade [] = ts.drop (ts.length - 1000) ∧
    (ts.foldl add_trade []).length ≤ 1000 := by
  have h := foldl_add_trade ts [] (by simp)
  simp only [List.nil_append, List.length_nil, Nat.zero_add] at h
  refine ⟨h, ?_⟩
  rw [h, List.length_drop]
  omega

/-! ## C5 — RateLimiter floor -/

lemma acquire_frozen (cap : ℕ) (window t now : ℚ) :
    acquire cap window ⟨t, now⟩ now =
      if t ≥ 1 then (⟨t - 1, now⟩, 0)
      else (⟨0, now + (1 - t) * (window / (cap : ℚ))⟩,
            (1 - t) * (window / (cap : ℚ))) := by
  simp [acquire]

lemma acquireN_full (cap : ℕ) (window now : ℚ) :
    ∀ (k : ℕ) (t : ℚ), (k : ℚ) ≤ t →
      acquireN cap window k ⟨t, now⟩ now = (⟨t - k, now⟩, List.replicate k 0) := by
  intro k
  induction k with
  | zero =>
      intro t ht
      simp [acquireN]
  | succ k ih =>
      intro t ht
      have hk : (0 : ℚ) ≤ (k : ℚ) := Nat.cast_nonneg k
      have hcast : ((k + 1 : ℕ) : ℚ) = (k : ℚ) + 1 := by push_cast; ring
      have h1 : (1 : ℚ) ≤ t := by rw [hcast] at ht; linarith
      have h2 : (k : ℚ) ≤ t - 1 := by rw [hcast] at ht; linarith
      have harith : t - 1 - (k : ℚ) = t - ((k + 1 : ℕ) : ℚ) := by
        rw [hcast]; ring
      simp [acquireN, acquire_frozen, if_pos h1, ih (t - 1) h2,
        List.replicate_succ, harith]

/-- C5: from a full bucket of `capacity` tokens with the wall clock frozen,
the first `capacity` `acquire` calls all return with sleep 0 and leave 0
tokens; the next call sleeps `(1 - 0) * (window / capacity)` — at least
`window / capacity` — and sets the token count to 0 and the refill clock to
the post-sleep current time without re-checking. -/
theorem C5_rate_limiter_floor (cap : ℕ) (window now : ℚ) :
    acquireN cap window cap ⟨(cap : ℚ), now⟩ now =
      (⟨0, now⟩, List.replicate cap 0) ∧
    acquire cap window ⟨0, now⟩ now =
      (⟨0, now + (1 - 0) * (window / (cap : ℚ))⟩,
       (1 - 0) * (window / (cap : ℚ))) ∧
    window / (cap : ℚ) ≤ (1 - 0) * (window / (cap : ℚ)) := by
  refine ⟨?_, ?_, by norm_num⟩
  · have h := acquireN_full cap window now cap (cap : ℚ) le_rfl
    simpa using h
  · rw [acquire_frozen]
    norm_num

/-! ## C7 — SpikePredictor.get_z_score -/

lemma sampleVariance_replicate (n : ℕ) (c : ℚ) :
    sampleVariance (List.replicate n c) = 0 := by
  cases n with
  | zero => simp [sampleVariance]
  | succ n =>
      have hmean : sampleMean (List.replicate (n + 1) c) = c := by
        have hne : ((n : ℚ) + 1) ≠ 0 := by positivity
        simp [sampleMean, List.sum_replicate, nsmul_eq_mul]
        field_simp
      simp [sampleVariance, hmean, List.map_replicate]

/-- C7: `get_z_score` returns 0 whenever the window holds fewer than 10
samples (for any queried volume) or the window's standard deviation is 0 —
in particular on a window of ≥ 10 identical values queried at that same
value — and otherwise returns `(current - mean) / std` of the window. -/
theorem C7_z_score_guards (w : List ℚ) (x : ℚ) :
    (w.length < 10 → get_z_score w x = 0) ∧
    (sampleStd w = 0 → get_z_score w x = 0) ∧
    (∀ (n : ℕ) (c : ℚ), 10 ≤ n → get_z_score (List.replicate n c) c = 0) ∧
    (¬ w.length < 10 → sampleStd w ≠ 0 →
      get_z_score w x = ((x : ℝ) - (sampleMean w : ℝ)) / sampleStd w) := by
  refine ⟨fun h => by simp [get_z_score, h], fun h => ?_,
    fun n c hn => ?_, fun h1 h2 => ?_⟩
  · simp [get_z_score, h]
  · have hv : sampleStd (List.replicate n c) = 0 := by
      simp [sampleStd, sampleVariance_replicate]
    simp [get_z_score, hv]
  · simp [get_z_score, h1, h2]

/-- Witness for `C7_z_score_guards`: the empty window, a 12-sample constant
window, and a 10-sample window with nonzero standard deviation. -/
theorem C7_z_score_guards_witness :
    get_z_score [] 7 = 0 ∧
    get_z_score (List.replicate 12 3) 3 = 0 ∧
    get_z_score [0, 0, 0, 0, 0, 0, 0, 0, 0, 1] 5 =
      ((5 : ℝ) - (sampleMean [0, 0, 0, 0, 0, 0, 0, 0, 0, 1] : ℝ)) /
        sampleStd [0, 0, 0, 0, 0, 0, 0, 0, 0, 1] := by
  refine ⟨(C7_z_score_guards [] 7).1 (by simp),
          (C7_z_score_guards (List.replicate 12 3) 3).2.2.1 12 3 (by norm_num),
          (C7_z_score_guards _ 5).2.2.2 (by simp) ?_⟩
  have hv : sampleVariance [0, 0, 0, 0, 0, 0, 0, 0, 0, 1] = 9 / 100 := by
    norm_num [sampleVariance, sampleMean]
  rw [sampleStd, hv, Real.sqrt_ne_zero']
  norm_num

/-! ## C10 — State.add_order and State.remove_order -/

lemma lookupOrder_insertOrder_self (l : List (ℤ × Order)) (o : Order) :
    lookupOrder (insertOrder l o) o.id = some o := by
  induction l with
  | nil => simp [insertOrder, lookupOrder]
  | cons p t ih =>
      obtain ⟨k, w⟩ := p
      by_cases hk : k = o.id
      · simp [insertOrder, hk, lookupOrder]
      · simp [insertOrder, hk, lookupOrder, ih]

lemma mem_keys_insertOrder (l : List (ℤ × Order)) (o : Order) (a : ℤ)
    (ha : a ∈ (insertOrder l o).map Prod.fst) :
    a ∈ l.map Prod.fst ∨ a = o.id := by
  induction l with
  | nil =>
      simp [insertOrder] at ha
      exact Or.inr ha
  | cons p t ih =>
      obtain ⟨k, w⟩ := p
      by_cases hk : k = o.id
      · simp [insertOrder, hk] at ha
        rcases ha with h | h
        · exact Or.inl (by simp [h, hk])
        · exact Or.inl (by simp [h])
      · simp [insertOrder, hk] at ha
        rcases ha with h | h
        · exact Or.inl (by simp [h])
        · have h' : a ∈ (insertOrder t o).map Prod.fst := by
            obtain ⟨x, hx⟩ := h
            exact List.mem_map.mpr ⟨(a, x), hx, rfl⟩
          rcases ih h' with h2 | h2
          · exact Or.inl (by simp [h2])
          · exact Or.inr h2

lemma nodup_keys_insertOrder (l : List (ℤ × Order)) (o : Order)
    (h : (l.map Prod.fst).Nodup) :
    ((insertOrder l o).map Prod.fst).Nodup := by
  induction l with
  | nil => simp [insertOrder]
  | cons p t ih =>
      obtain ⟨k, w⟩ := p
      simp only [List.map_cons, List.nodup_cons] at h
      by_cases hk : k = o.id
      · simpa [insertOrder, hk] using h
      · have h2 : ((insertOrder t o).map Prod.fst).Nodup := ih h.2
        have h3 : k ∉ (insertOrder t o).map Prod.fst := by
          intro hmem
          rcases mem_keys_insertOrder t o k hmem with hc | hc
          · exact h.1 hc
          · exact hk hc
        simp [insertOrder, hk, List.nodup_cons, h2, h3]

lemma nodup_keys_filter (l : List (ℤ × Order)) (p : ℤ × Order → Bool)
    (h : (l.map Prod.fst).Nodup) :
    ((l.filter p).map Prod.fst).Nodup :=
  h.sublist ((List.filter_sublist l).map Prod.fst)

lemma nodup_keys_applyOrderOps (ops : List OrderOp) :
    ∀ s : State, (s.pending_orders.map Prod.fst).Nodup →
      ((applyOrderOps s ops).pending_orders.map Prod.fst).Nodup := by
  induction ops with
  | nil => intro s h; exact h
  | cons op ops ih =>
      intro s h
      have hstep : ∀ s' : State,
          applyOrderOps s (op :: ops) =
            applyOrderOps (match op with
              | OrderOp.add o => s.add_order o
              | OrderOp.remove i => s.remove_order i) ops := by
        intro _; rfl
      rw [hstep s]
      cases op with
      | add o =>
          exact ih _ (nodup_keys_insertOrder s.pending_orders o h)
      | remove i =>
          refine ih _ ?_
          simp only [State.remove_order]
          by_cases hc : (lookupOrder s.pending_orders i).isSome
          · simpa [hc] using nodup_keys_filter s.pending_orders _ h
          · simpa [hc] using h

/-- C10: `remove_order` on an id absent from the pending-order set is a
no-op that leaves the whole state unchanged; `add_order` with an already
present id overwrites that entry (looking the id up afterwards yields the
new order); and any sequence of add/remove operations preserves uniqueness
of the pending-order keys. -/
theorem C10_pending_orders_unique (s : State) (i : ℤ) (o : Order)
    (ops : List OrderOp)
    (habs : lookupOrder s.pending_orders i = none)
    (hnd : (s.pending_orders.map Prod.fst).Nodup) :
    s.remove_order i = s ∧
    lookupOrder (s.add_order o).pending_orders o.id = some o ∧
    ((applyOrderOps s ops).pending_orders.map Prod.fst).Nodup := by
  refine ⟨?_, ?_, nodup_keys_applyOrderOps ops s hnd⟩
  · simp [State.remove_order, habs]
  · simp [State.add_order, lookupOrder_insertOrder_self]

/-- Witness for `C10_pending_orders_unique`: the fresh state, a remove of
the absent id 1, an add of an order with id 1, and a two-operation
sequence. -/
theorem C10_pending_orders_unique_witness :
    State.remove_order ⟨0, 0, [], [], [], [], 0, 0, false, 0⟩ 1 =
      ⟨0, 0, [], [], [], [], 0, 0, false, 0⟩ ∧
    lookupOrder
      (State.add_order ⟨0, 0, [], [], [], [], 0, 0, false, 0⟩
        ⟨1, 5, 2, 30, 0, "LIMIT"⟩).pending_orders 1 =
      some ⟨1, 5, 2, 30, 0, "LIMIT"⟩ ∧
    ((applyOrderOps ⟨0, 0, [], [], [], [], 0, 0, false, 0⟩
        [OrderOp.add ⟨1, 5, 2, 30, 0, "LIMIT"⟩,
         OrderOp.add ⟨1, 6, 3, 30, 1, "LIMIT"⟩,
         OrderOp.remove 7]).pending_orders.map Prod.fst).Nodup :=
  C10_pending_orders_unique ⟨0, 0, [], [], [], [], 0, 0, false, 0⟩ 1
    ⟨1, 5, 2, 30, 0, "LIMIT"⟩
    [OrderOp.add ⟨1, 5, 2, 30, 0, "LIMIT"⟩,
     OrderOp.add ⟨1, 6, 3, 30, 1, "LIMIT"⟩,
     OrderOp.remove 7]
    rfl (by simp)

/-! ## C9 and C8 — heartbeat frames and stale channel ids -/

/-- C9: processing a heartbeat frame updates only the last-activity
timestamp: the book sides, trade history, balances, pending orders (and the
channel map) are all unchanged, and the whole resulting state is the old
state with only `last_update_time` replaced. -/
theorem C9_heartbeat_timestamp_only (c : WSClient) (i : ℕ) (now : ℚ) :
    (wsStep c (WSEvent.msg (Msg.hb i) now)).state.bids = c.state.bids ∧
    (wsStep c (WSEvent.msg (Msg.hb i) now)).state.asks = c.state.asks ∧
    (wsStep c (WSEvent.msg (Msg.hb i) now)).state.trades = c.state.trades ∧
    (wsStep c (WSEvent.msg (Msg.hb i) now)).state.available_balance =
      c.state.available_balance ∧
    (wsStep c (WSEvent.msg (Msg.hb i) now)).state.lent_balance =
      c.state.lent_balance ∧
    (wsStep c (WSEvent.msg (Msg.hb i) now)).state.pending_orders =
      c.state.pending_orders ∧
    (wsStep c (WSEvent.msg (Msg.hb i) now)).chan_map = c.chan_map ∧
    (wsStep c (WSEvent.msg (Msg.hb i) now)).state =
      { c.state with last_update_time := now } :=
  ⟨rfl, rfl, rfl, rfl, rfl, rfl, rfl, rfl⟩

lemma handle_message_chan_map (c : WSClient) (m : Msg) :
    (handle_message c m).chan_map =
      match m with
      | Msg.subscribed i ch => setChan c.chan_map i ch
      | _ => c.chan_map := by
  cases m with
  | info => rfl
  | subscribed i ch => rfl
  | hb i => rfl
  | data i p =>
      cases hch : lookupChan c.chan_map i with
      | none => simp [handle_message, hch]
      | some ch => cases ch <;> cases p <;> simp [handle_message, hch]

lemma lookupChan_setChan_ne (l : List (ℕ × Chan)) (j i : ℕ) (ch : Chan)
    (hij : j ≠ i) :
    lookupChan (setChan l j ch) i = lookupChan l i := by
  induction l with
  | nil => simp [setChan, lookupChan, hij]
  | cons p t ih =>
      obtain ⟨k, w⟩ := p
      by_cases hk : k = j
      · subst hk
        simp [setChan, lookupChan, hij]
      · simp [setChan, hk, lookupChan, ih]

lemma wsStep_lookup_none (i : ℕ) (e : WSEvent) (c : WSClient)
    (hc : lookupChan c.chan_map i = none)
    (he : ∀ ch t, e ≠ WSEvent.msg (Msg.subscribed i ch) t) :
    lookupChan (wsStep c e).chan_map i = none := by
  cases e with
  | reconnect => simp [wsStep, lookupChan]
  | msg m now =>
      have hcm : (wsStep c (WSEvent.msg m now)).chan_map =
          (handle_message c m).chan_map := rfl
      rw [hcm, handle_message_chan_map]
      cases m with
      | info => exact hc
      | hb j => exact hc
      | data j p => exact hc
      | subscribed j ch =>
          have hij : j ≠ i := by
            intro h
            exact he ch now (by rw [h])
          simp only
          rw [lookupChan_setChan_ne _ _ _ _ hij]
          exact hc

lemma wsRun_lookup_none (i : ℕ) (es : List WSEvent) :
    ∀ c : WSClient, lookupChan c.chan_map i = none →
      (∀ e ∈ es, ∀ ch t, e ≠ WSEvent.msg (Msg.subscribed i ch) t) →
      lookupChan (wsRun c es).chan_map i = none := by
  induction es with
  | nil =>
      intro c hc _
      exact hc
  | cons e es ih =>
      intro c hc hes
      have h1 : wsRun c (e :: es) = wsRun (wsStep c e) es := rfl
      rw [h1]
      exact ih (wsStep c e)
        (wsStep_lookup_none i e c hc (hes e (List.mem_cons_self e es)))
        (fun e' he' => hes e' (List.mem_cons_of_mem _ he'))

lemma wsStep_data_unknown (c : WSClient) (i : ℕ) (p : Payload) (now : ℚ)
    (hc : lookupChan c.chan_map i = none) :
    wsStep c (WSEvent.msg (Msg.data i p) now) =
      { c with state := { c.state with last_update_time := now } } := by
  simp [wsStep, handle_message, hc]

/-- C8: after a reconnect (which clears the channel-id map), a data frame
addressed to a channel id that has not been re-bound by a post-reconnect
subscription acknowledgment is dropped: the book sides and the trade history
are unchanged, and the only effect of the frame is the last-activity
timestamp update. -/
theorem C8_stale_channel_id_dropped (c : WSClient) (es : List WSEvent)
    (i : ℕ) (p : Payload) (now : ℚ)
    (hre : ∀ e ∈ es, ∀ ch t, e ≠ WSEvent.msg (Msg.subscribed i ch) t) :
    (wsStep (wsRun (wsStep c WSEvent.reconnect) es)
        (WSEvent.msg (Msg.data i p) now)).state.bids =
      (wsRun (wsStep c WSEvent.reconnect) es).state.bids ∧
    (wsStep (wsRun (wsStep c WSEvent.reconnect) es)
        (WSEvent.msg (Msg.data i p) now)).state.asks =
      (wsRun (wsStep c WSEvent.reconnect) es).state.asks ∧
    (wsStep (wsRun (wsStep c WSEvent.reconnect) es)
        (WSEvent.msg (Msg.data i p) now)).state.trades =
      (wsRun (wsStep c WSEvent.reconnect) es).state.trades ∧
    (wsStep (wsRun (wsStep c WSEvent.reconnect) es)
        (WSEvent.msg (Msg.data i p) now)).state =
      { (wsRun (wsStep c WSEvent.reconnect) es).state with
          last_update_time := now } := by
  have h0 : lookupChan (wsStep c WSEvent.reconnect).chan_map i = none := by
    simp [wsStep, lookupChan]
  have h1 := wsRun_lookup_none i es (wsStep c WSEvent.reconnect) h0 hre
  have h2 := wsStep_data_unknown _ i p now h1
  rw [h2]
  exact ⟨rfl, rfl, rfl, rfl⟩

/-- Witness for `C8_stale_channel_id_dropped`: channel id 1 was bound to the
book channel before the reconnect; afterwards only channel id 2 is
re-subscribed, and a book update addressed to the stale id 1 leaves the book
and trade history untouched. -/
theorem C8_stale_channel_id_dropped_witness :
    (wsStep (wsRun (wsStep ⟨⟨0, 0, [], [], [], [], 0, 0, false, 0⟩,
          [(1, Chan.book)]⟩ WSEvent.reconnect)
        [WSEvent.msg (Msg.subscribed 2 Chan.book) 5])
        (WSEvent.msg (Msg.data 1 (Payload.pbook
          (BookFrame.update ⟨1, 2, 1, 5⟩))) 9)).state.bids =
      (wsRun (wsStep ⟨⟨0, 0, [], [], [], [], 0, 0, false, 0⟩,
          [(1, Chan.book)]⟩ WSEvent.reconnect)
        [WSEvent.msg (Msg.subscribed 2 Chan.book) 5]).state.bids ∧
    (wsStep (wsRun (wsStep ⟨⟨0, 0, [], [], [], [], 0, 0, false, 0⟩,
          [(1, Chan.book)]⟩ WSEvent.reconnect)
        [WSEvent.msg (Msg.subscribed 2 Chan.book) 5])
        (WSEvent.msg (Msg.data 1 (Payload.pbook
          (BookFrame.update ⟨1, 2, 1, 5⟩))) 9)).state.asks =
      (wsRun (wsStep ⟨⟨0, 0, [], [], [], [], 0, 0, false, 0⟩,
          [(1, Chan.book)]⟩ WSEvent.reconnect)
        [WSEvent.msg (Msg.subscribed 2 Chan.book) 5]).state.asks ∧
    (wsStep (wsRun (wsStep ⟨⟨0, 0, [], [], [], [], 0, 0, false, 0⟩,
          [(1, Chan.book)]⟩ WSEvent.reconnect)
        [WSEvent.msg (Msg.subscribed 2 Chan.book) 5])
        (WSEvent.msg (Msg.data 1 (Payload.pbook
          (BookFrame.update ⟨1, 2, 1, 5⟩))) 9)).state.trades =
      (wsRun (wsStep ⟨⟨0, 0, [], [], [], [], 0, 0, false, 0⟩,
          [(1, Chan.book)]⟩ WSEvent.reconnect)
        [WSEvent.msg (Msg.subscribed 2 Chan.book) 5]).state.trades ∧
    (wsStep (wsRun (wsStep ⟨⟨0, 0, [], [], [], [], 0, 0, false, 0⟩,
          [(1, Chan.book)]⟩ WSEvent.reconnect)
        [WSEvent.msg (Msg.subscribed 2 Chan.book) 5])
        (WSEvent.msg (Msg.data 1 (Payload.pbook
          (BookFrame.update ⟨1, 2, 1, 5⟩))) 9)).state =
      { (wsRun (wsStep ⟨⟨0, 0, [], [], [], [], 0, 0, false, 0⟩,
            [(1, Chan.book)]⟩ WSEvent.reconnect)
          [WSEvent.msg (Msg.subscribed 2 Chan.book) 5]).state with
          last_update_time := 9 } :=
  C8_stale_channel_id_dropped
    ⟨⟨0, 0, [], [], [], [], 0, 0, false, 0⟩, [(1, Chan.book)]⟩
    [WSEvent.msg (Msg.subscribed 2 Chan.book) 5] 1
    (Payload.pbook (BookFrame.update ⟨1, 2, 1, 5⟩)) 9
    (by
      intro e he ch t
      simp only [List.mem_singleton] at he
      subst he
      simp)

/-! ## C2 — order-book side invariant -/

/-- The frame has an occurrence inserting rate `r` on the bid side
(snapshot entries always insert; updates only when count ≠ 0). -/
def framePosRate (f : BookFrame) (r : ℚ) : Bool :=
  match f with
  | BookFrame.snapshot es => es.any fun e => decide (e.rate = r ∧ 0 < e.amount)
  | BookFrame.update e => decide (e.rate = r ∧ 0 < e.amount ∧ e.count ≠ 0)

/-- The frame has an occurrence inserting rate `r` on the ask side. -/
def frameNegRate (f : BookFrame) (r : ℚ) : Bool :=
  match f with
  | BookFrame.snapshot es => es.any fun e => decide (e.rate = r ∧ ¬ 0 < e.amount)
  | BookFrame.update e => decide (e.rate = r ∧ ¬ 0 < e.amount ∧ e.count ≠ 0)

/-- No rate is inserted with both amount signs anywhere in the sequence. -/
def signConsistent (fs : List BookFrame) : Prop :=
  ∀ r : ℚ, ¬ ((fs.any fun f => framePosRate f r) = true ∧
              (fs.any fun f => frameNegRate f r) = true)

lemma hasKey_cons (p : ℚ × ℚ) (l : List (ℚ × ℚ)) (r : ℚ) :
    hasKey (p :: l) r = (decide (p.1 = r) || hasKey l r) := rfl

lemma hasKey_setKey (k v r : ℚ) :
    ∀ l : List (ℚ × ℚ), hasKey (setKey l k v) r = true →
      k = r ∨ hasKey l r = true := by
  intro l
  induction l with
  | nil =>
      intro h
      simp only [setKey, hasKey_cons] at h
      simp only [hasKey, List.any_nil, Bool.or_false] at h
      exact Or.inl (of_decide_eq_true h)
  | cons p t ih =>
      obtain ⟨a, w⟩ := p
      intro h
      by_cases ha : a = k
      · subst ha
        simp only [setKey, eq_self_iff_true, if_true, hasKey_cons] at h
        simp only [Bool.or_eq_true] at h
        rcases h with h1 | h1
        · exact Or.inl (of_decide_eq_true h1)
        · refine Or.inr ?_
          rw [hasKey_cons]
          simp only [Bool.or_eq_true]
          exact Or.inr h1
      · simp only [setKey, if_neg ha, hasKey_cons] at h
        simp only [Bool.or_eq_true] at h
        rcases h with h1 | h1
        · refine Or.inr ?_
          rw [hasKey_cons]
          simp only [Bool.or_eq_true]
          exact Or.inl h1
        · rcases ih h1 with h2 | h2
          · exact Or.inl h2
          · refine Or.inr ?_
            rw [hasKey_cons]
            simp only [Bool.or_eq_true]
            exact Or.inr h2

lemma hasKey_delKey (l : List (ℚ × ℚ)) (k r : ℚ)
    (h : hasKey (delKey l k) r = true) : hasKey l r = true := by
  simp only [hasKey, delKey, List.any_eq_true] at h ⊢
  obtain ⟨p, hp, hr⟩ := h
  exact ⟨p, List.mem_of_mem_filter hp, hr⟩

lemma hasKey_delKey_self (l : List (ℚ × ℚ)) (k : ℚ) :
    hasKey (delKey l k) k = false := by
  simp only [hasKey, delKey, List.any_eq_false]
  intro p hp
  have := List.of_mem_filter hp
  simpa using this

lemma snapFold_bids (es : List BookEntry) :
    ∀ (b : Book) (r : ℚ), hasKey (es.foldl snapStep b).bids r = true →
      hasKey b.bids r = true ∨
      (es.any fun e => decide (e.rate = r ∧ 0 < e.amount)) = true := by
  induction es with
  | nil =>
      intro b r h
      exact Or.inl h
  | cons e es ih =>
      intro b r h
      have h1 : List.foldl snapStep b (e :: es) =
          List.foldl snapStep (snapStep b e) es := rfl
      rw [h1] at h
      rcases ih (snapStep b e) r h with h2 | h2
      · by_cases hamt : e.amount > 0
        · simp only [snapStep, if_pos hamt] at h2
          rcases hasKey_setKey _ _ _ _ h2 with h3 | h3
          · refine Or.inr ?_
            simp only [List.any_cons, Bool.or_eq_true]
            exact Or.inl (decide_eq_true ⟨h3, hamt⟩)
          · exact Or.inl h3
        · simp only [snapStep, if_neg hamt] at h2
          exact Or.inl h2
      · refine Or.inr ?_
        simp only [List.any_cons, Bool.or_eq_true]
        exact Or.inr h2

lemma snapFold_asks (es : List BookEntry) :
    ∀ (b : Book) (r : ℚ), hasKey (es.foldl snapStep b).asks r = true →
      hasKey b.asks r = true ∨
      (es.any fun e => decide (e.rate = r ∧ ¬ 0 < e.amount)) = true := by
  induction es with
  | nil =>
      intro b r h
      exact Or.inl h
  | cons e es ih =>
      intro b r h
      have h1 : List.foldl snapStep b (e :: es) =
          List.foldl snapStep (snapStep b e) es := rfl
      rw [h1] at h
      rcases ih (snapStep b e) r h with h2 | h2
      · by_cases hamt : e.amount > 0
        · simp only [snapStep, if_pos hamt] at h2
          exact Or.inl h2
        · simp only [snapStep, if_neg hamt] at h2
          rcases hasKey_setKey _ _ _ _ h2 with h3 | h3
          · refine Or.inr ?_
            simp only [List.any_cons, Bool.or_eq_true]
            exact Or.inl (decide_eq_true ⟨h3, hamt⟩)
          · exact Or.inl h3
      · refine Or.inr ?_
        simp only [List.any_cons, Bool.or_eq_true]
        exact Or.inr h2

lemma applyBookFrame_bids (b : Book) (f : BookFrame) (r : ℚ)
    (h : hasKey (applyBookFrame b f).bids r = true) :
    hasKey b.bids r = true ∨ framePosRate f r = true := by
  cases f with
  | snapshot es =>
      rcases snapFold_bids es emptyBook r h with h2 | h2
      · simp [emptyBook, hasKey] at h2
      · exact Or.inr h2
  | update e =>
      by_cases hc : e.count = 0
      · simp only [applyBookFrame, updBook, if_pos hc] at h
        exact Or.inl (hasKey_delKey _ _ _ h)
      · by_cases hamt : e.amount > 0
        · simp only [applyBookFrame, updBook, if_neg hc, if_pos hamt] at h
          rcases hasKey_setKey _ _ _ _ h with h3 | h3
          · exact Or.inr (decide_eq_true ⟨h3, hamt, hc⟩)
          · exact Or.inl h3
        · simp only [applyBookFrame, updBook, if_neg hc, if_neg hamt] at h
          exact Or.inl h

lemma applyBookFrame_asks (b : Book) (f : BookFrame) (r : ℚ)
    (h : hasKey (applyBookFrame b f).asks r = true) :
    hasKey b.asks r = true ∨ frameNegRate f r = true := by
  cases f with
  | snapshot es =>
      rcases snapFold_asks es emptyBook r h with h2 | h2
      · simp [emptyBook, hasKey] at h2
      · exact Or.inr h2
  | update e =>
      by_cases hc : e.count = 0
      · simp only [applyBookFrame, updBook, if_pos hc] at h
        exact Or.inl (hasKey_delKey _ _ _ h)
      · by_cases hamt : e.amount > 0
        · simp only [applyBookFrame, updBook, if_neg hc, if_pos hamt] at h
          exact Or.inl h
        · simp only [applyBookFrame, updBook, if_neg hc, if_neg hamt] at h
          rcases hasKey_setKey _ _ _ _ h with h3 | h3
          · exact Or.inr (decide_eq_true ⟨h3, hamt, hc⟩)
          · exact Or.inl h3

lemma book_sides_subset (P N : ℚ → Prop) (fs : List BookFrame)
    (hframes : ∀ f ∈ fs, (∀ r, framePosRate f r = true → P r) ∧
                         (∀ r, frameNegRate f r = true → N r)) :
    ∀ b : Book, (∀ r, hasKey b.bids r = true → P r) →
      (∀ r, hasKey b.asks r = true → N r) →
      (∀ r, hasKey (applyBookFrames b fs).bids r = true → P r) ∧
      (∀ r, hasKey (applyBookFrames b fs).asks r = true → N r) := by
  induction fs with
  | nil =>
      intro b hb ha
      exact ⟨hb, ha⟩
  | cons f fs ih =>
      intro b hb ha
      have h1 : applyBookFrames b (f :: fs) =
          applyBookFrames (applyBookFrame b f) fs := rfl
      rw [h1]
      have hf := hframes f (List.mem_cons_self f fs)
      refine ih (fun g hg => hframes g (List.mem_cons_of_mem _ hg))
        (applyBookFrame b f) ?_ ?_
      · intro r hr
        rcases applyBookFrame_bids b f r hr with h2 | h2
        · exact hb r h2
        · exact hf.1 r h2
      · intro r hr
        rcases applyBookFrame_asks b f r hr with h2 | h2
        · exact ha r h2
        · exact hf.2 r h2

/-- C2 (amended): a zero-count incremental update removes its rate from both
the bid and the ask mapping unconditionally; and after any sign-consistent
sequence of book frames applied to the empty book (no rate inserted with both
a positive and a non-positive amount anywhere in the sequence) every rate key
is present in at most one of the two mappings.  Without sign-consistency the
claimed invariant fails (see the counterexample). -/
theorem C2_book_sides_disjoint (fs : List BookFrame) (b : Book)
    (e : BookEntry) (hsc : signConsistent fs) (hcount : e.count = 0) :
    (∀ r, ¬ (hasKey (applyBookFrames emptyBook fs).bids r = true ∧
             hasKey (applyBookFrames emptyBook fs).asks r = true)) ∧
    hasKey (updBook b e).bids e.rate = false ∧
    hasKey (updBook b e).asks e.rate = false := by
  refine ⟨?_, ?_, ?_⟩
  · have h := book_sides_subset
      (fun r => (fs.any fun f => framePosRate f r) = true)
      (fun r => (fs.any fun f => frameNegRate f r) = true) fs
      (fun f hf => ⟨fun r hr => List.any_eq_true.mpr ⟨f, hf, hr⟩,
                    fun r hr => List.any_eq_true.mpr ⟨f, hf, hr⟩⟩)
      emptyBook (by intro r hr; simp [emptyBook, hasKey] at hr)
      (by intro r hr; simp [emptyBook, hasKey] at hr)
    intro r hr
    exact hsc r ⟨h.1 r hr.1, h.2 r hr.2⟩
  · simp only [updBook, if_pos hcount]
    exact hasKey_delKey_self _ _
  · simp only [updBook, if_pos hcount]
    exact hasKey_delKey_self _ _

/-- C2 counterexample: from the empty book, an update inserting rate 1 on
the bid side followed by an update inserting rate 1 on the ask side leaves
rate 1 present in both mappings — a non-zero update does not remove the rate
from the opposite side, so the at-most-one-side invariant fails. -/
theorem C2_both_sides_counterexample :
    hasKey (applyBookFrames emptyBook
      [BookFrame.update ⟨1, 2, 1, 5⟩, BookFrame.update ⟨1, 2, 1, -5⟩]).bids 1 = true ∧
    hasKey (applyBookFrames emptyBook
      [BookFrame.update ⟨1, 2, 1, 5⟩, BookFrame.update ⟨1, 2, 1, -5⟩]).asks 1 = true := by
  decide

/-- Witness for `C2_book_sides_disjoint`: a bid-side update plus a bid-side
snapshot (all amounts positive, hence sign-consistent) and a zero-count
update applied to a book holding rate 3 on both sides. -/
theorem C2_book_sides_disjoint_witness :
    (∀ r, ¬ (hasKey (applyBookFrames emptyBook
        [BookFrame.update ⟨1, 2, 1, 5⟩,
         BookFrame.snapshot [⟨2, 2, 1, 4⟩]]).bids r = true ∧
      hasKey (applyBookFrames emptyBook
        [BookFrame.update ⟨1, 2, 1, 5⟩,
         BookFrame.snapshot [⟨2, 2, 1, 4⟩]]).asks r = true)) ∧
    hasKey (updBook ⟨[(3, 7)], [(3, 2)]⟩ ⟨3, 2, 0, 0⟩).bids 3 = false ∧
    hasKey (updBook ⟨[(3, 7)], [(3, 2)]⟩ ⟨3, 2, 0, 0⟩).asks 3 = false := by
  refine C2_book_sides_disjoint
    [BookFrame.update ⟨1, 2, 1, 5⟩, BookFrame.snapshot [⟨2, 2, 1, 4⟩]]
    ⟨[(3, 7)], [(3, 2)]⟩ ⟨3, 2, 0, 0⟩ ?_ rfl
  intro r h
  have h2 := h.2
  norm_num [frameNegRate] at h2
